import Mathlib

/-
Verification development for the college rank predictor (ranpredictor.py).

The pandas dataframe is modelled as a header (list of column names) plus a
list of rows (lists of cell values).  A cell is missing (NaN), numeric, or a
string.  Rank data in this repository is integral, so numeric cells are
modelled as integers; Python's float division followed by int() truncation
agrees with integer division on the non-negative values that arise in the
interpolation branch.  Operations that raise KeyError in the source (a
required column is absent) return none.
-/

namespace SelectYourUni

/-- A cell value of a table: missing (NaN), numeric, or string. -/
inductive Val where
  | na : Val
  | num : Int → Val
  | str : String → Val
  deriving DecidableEq, Repr

/-- Whether a cell is missing (pd.isnull). -/
def Val.isNA : Val → Bool
  | Val.na => true
  | _ => false

/-- Accumulate a decimal digit string; none on any non-digit. -/
def parseDigitsAux : List Char → Nat → Option Nat
  | [], acc => some acc
  | ch :: t, acc =>
    if ch.isDigit then parseDigitsAux t (acc * 10 + (ch.toNat - 48)) else none

/-- Parse an optionally negated decimal integer from characters; none when
empty or containing any other character. -/
def parseIntChars : List Char → Option Int
  | [] => none
  | ch :: t =>
    if ch == '-' then
      match t with
      | [] => none
      | _ :: _ => (parseDigitsAux t 0).map (fun n => -(n : Int))
    else (parseDigitsAux (ch :: t) 0).map (fun n => (n : Int))

/-- pd.to_numeric with coercion of errors: numeric strings are parsed,
unparsable values become missing. -/
def toNumeric : Val → Val
  | Val.na => Val.na
  | Val.num x => Val.num x
  | Val.str s =>
    match parseIntChars s.data with
    | some n => Val.num n
    | none => Val.na

/-- A dataframe: column names plus rows of cells. -/
structure DF where
  cols : List String
  rows : List (List Val)
  deriving DecidableEq, Repr

/-- Well-formedness: every row has one cell per column. -/
def DF.WF (df : DF) : Prop := ∀ r ∈ df.rows, r.length = df.cols.length

instance (df : DF) : Decidable df.WF :=
  decidable_of_iff (∀ r ∈ df.rows, r.length = df.cols.length) Iff.rfl

/-- Index of the first column with the given name. -/
def colIdx (name : String) : List String → Option Nat
  | [] => none
  | c :: cs => if c == name then some 0 else Option.map Nat.succ (colIdx name cs)

/-- The cell of a row under a named column of the frame (missing when the
column is absent). -/
def DF.cell (df : DF) (row : List Val) (name : String) : Val :=
  match colIdx name df.cols with
  | some i => row.getD i Val.na
  | none => Val.na

/-- Keep the entries of a list selected by a boolean mask. -/
def applyMask {α : Type} (m : List Bool) (xs : List α) : List α :=
  (m.zip xs).filterMap (fun p => if p.fst then some p.snd else none)

/-- Whether every value in column i is missing (so dropna axis=1 how=all
removes it; with zero rows every column counts as all-missing, as pandas
drops columns whose non-missing count is zero). -/
def colAllNa (df : DF) (i : Nat) : Bool :=
  df.rows.all (fun r => (r.getD i Val.na).isNA)

/-- Drop the columns whose mask entry is false, from the header and from
every row. -/
def dropColsMask (df : DF) (m : List Bool) : DF :=
  DF.mk (applyMask m df.cols) (df.rows.map (applyMask m))

/-- df.dropna(axis=1, how='all'). -/
def dropAllNaCols (df : DF) : DF :=
  dropColsMask df ((List.range df.cols.length).map (fun i => !(colAllNa df i)))

/-- Whether the first list is an initial segment of the second. -/
def chPre : List Char → List Char → Bool
  | [], _ => true
  | _ :: _, [] => false
  | a :: as, b :: bs => a == b && chPre as bs

/-- Whether the needle occurs contiguously somewhere in the haystack. -/
def chSub (needle : List Char) : List Char → Bool
  | [] => chPre needle []
  | b :: bs => chPre needle (b :: bs) || chSub needle bs

/-- Whether a column name starts with the literal Unnamed (the anchored
pattern of the source). -/
def startsUnnamed (n : String) : Bool := chPre ("Unnamed".data) n.data

/-- df.loc of the columns not matching the anchored Unnamed pattern. -/
def dropUnnamedCols (df : DF) : DF :=
  dropColsMask df (df.cols.map (fun n => !(startsUnnamed n)))

/-- Column assignment df[name] = pd.to_numeric(df[name], errors='coerce');
none models the KeyError when the column is absent. -/
def setColNumeric (df : DF) (name : String) : Option DF :=
  match colIdx name df.cols with
  | some i =>
    some (DF.mk df.cols (df.rows.map (fun r => r.set i (toNumeric (r.getD i Val.na)))))
  | none => none

/-- The rename mapping of preprocess_dataframe (the other four entries of the
source mapping are literal identities). -/
def renameOne (n : String) : String :=
  if n == "Institute" then "College Name"
  else if n == "Academic Program Name" then "Course Name"
  else n

/-- df.rename of the canonical-schema mapping. -/
def renameCols (df : DF) : DF := DF.mk (df.cols.map renameOne) df.rows

/-- df.dropna(subset=names): keep the rows with no missing cell under the
named columns; none models the KeyError when a named column is absent. -/
def dropNaSubset (df : DF) (names : List String) : Option DF :=
  if names.all (fun n => (colIdx n df.cols).isSome) then
    some (DF.mk df.cols (df.rows.filter (fun r => names.all (fun n => !(df.cell r n).isNA))))
  else none

/-- preprocess_dataframe of ranpredictor.py: drop all-missing columns, drop
Unnamed columns, coerce the two rank columns to numeric, rename to the
canonical schema, drop the rows with a missing rank. -/
def preprocess_dataframe (df : DF) : Option DF := do
  let d1 := dropAllNaCols df
  let d2 := dropUnnamedCols d1
  let d3 ← setColNumeric d2 "Opening Rank"
  let d4 ← setColNumeric d3 "Closing Rank"
  let d5 := renameCols d4
  dropNaSubset d5 ["Opening Rank", "Closing Rank"]

/-- calculate_chances of ranpredictor.py. -/
def calculate_chances (user_rank opening_rank closing_rank : Int) : Int :=
  if user_rank ≤ opening_rank then 90
  else if user_rank > closing_rank then 10
  else 10 + 80 * (closing_rank - user_rank) / (closing_rank - opening_rank)

/-- calculate_deviation of ranpredictor.py. -/
def calculate_deviation (user_rank closing_rank : Int) : Int :=
  user_rank - closing_rank

/-- The characters of a string, lowercased. -/
def lowerChars (s : String) : List Char := s.data.map Char.toLower

/-- The three course tokens of filter_courses. -/
def courseTokens : List String := ["planning", "architecture", "design"]

/-- str.contains('planning|architecture|design', case=False, na=False):
missing and non-string cells match nothing; matching is a case-insensitive
substring test against the three tokens. -/
def courseMatch : Val → Bool
  | Val.str s => courseTokens.any (fun t => chSub t.data (lowerChars s))
  | _ => false

/-- filter_courses of ranpredictor.py: the B.Plan / B.Arch selection keeps
the rows whose Course Name matches a token, every other selection keeps the
complement; none models the KeyError when Course Name is absent. -/
def filter_courses (df : DF) (course_type : String) : Option DF :=
  match colIdx "Course Name" df.cols with
  | none => none
  | some _ =>
    if course_type == "B.Plan / B.Arch" then
      some (DF.mk df.cols (df.rows.filter (fun r => courseMatch (df.cell r "Course Name"))))
    else
      some (DF.mk df.cols (df.rows.filter (fun r => !courseMatch (df.cell r "Course Name"))))

/-- Series comparison cell < k: false on missing and non-numeric cells, as a
NaN comparison is false in pandas. -/
def vltInt : Val → Int → Bool
  | Val.num x, k => decide (x < k)
  | _, _ => false

/-- Series comparison cell <= k. -/
def vleInt : Val → Int → Bool
  | Val.num x, k => decide (x ≤ k)
  | _, _ => false

/-- Series comparison cell > k. -/
def vgtInt : Val → Int → Bool
  | Val.num x, k => decide (x > k)
  | _, _ => false

/-- Series comparison cell >= k. -/
def vgeInt : Val → Int → Bool
  | Val.num x, k => decide (x ≥ k)
  | _, _ => false

/-- Series comparison cell == s for a string s: false on missing and numeric
cells. -/
def veqStr : Val → String → Bool
  | Val.str t, s => t == s
  | _, _ => false

/-- One row of a column assignment df[name] = f(row): overwrite the existing
column or append a new one at the end. -/
def addColRow (df : DF) (name : String) (f : List Val → Val) (r : List Val) : List Val :=
  match colIdx name df.cols with
  | some i => r.set i (f r)
  | none => r ++ [f r]

/-- Column assignment df[name] = row-wise f: overwrite the existing column
or append a new one at the end of the header. -/
def addCol (df : DF) (name : String) (f : List Val → Val) : DF :=
  DF.mk
    (if (colIdx name df.cols).isSome then df.cols else df.cols ++ [name])
    (df.rows.map (addColRow df name f))

/-- The Chance value derived from a pair of rank cells: calculate_chances
when both are non-missing numbers, else the defensive 0 of the source's
notnull guard. -/
def chanceVal (user_rank : Int) (o c : Val) : Val :=
  match o, c with
  | Val.num a, Val.num b => Val.num (calculate_chances user_rank a b)
  | _, _ => Val.num 0

/-- The Deviation value derived from a closing-rank cell:
calculate_deviation when it is a non-missing number, else 0. -/
def devVal (user_rank : Int) (c : Val) : Val :=
  match c with
  | Val.num b => Val.num (calculate_deviation user_rank b)
  | _ => Val.num 0

/-- One Chance entry of a row. -/
def chanceRow (user_rank : Int) (df : DF) (r : List Val) : Val :=
  chanceVal user_rank (df.cell r "Opening Rank") (df.cell r "Closing Rank")

/-- One Deviation entry of a row. -/
def devRow (user_rank : Int) (df : DF) (r : List Val) : Val :=
  devVal user_rank (df.cell r "Closing Rank")

/-- The in-place coercion of both rank columns at the top of
classify_colleges (lines 69-70 of the source), visible to the caller. -/
def coerceRankCols (df : DF) : Option DF := do
  let d1 ← setColNumeric df "Opening Rank"
  setColNumeric d1 "Closing Rank"

/-- The working copy inside classify_colleges after the in-place coercion,
with the Chance and Deviation columns added. -/
def classify_table (df : DF) (user_rank : Int) : Option DF := do
  let dfA ← coerceRankCols df
  let d2 := addCol dfA "Chance" (chanceRow user_rank dfA)
  pure (addCol d2 "Deviation" (devRow user_rank d2))

/-- The quota and seat-type equality conjuncts shared by the three bucket
filters. -/
def rowQS (df : DF) (quota seat_type : String) (r : List Val) : Bool :=
  veqStr (df.cell r "Quota") quota && veqStr (df.cell r "Seat Type") seat_type

/-- The ambitious filter: Closing Rank < user_rank, plus quota and seat
type. -/
def ambBucket (df : DF) (user_rank : Int) (quota seat_type : String) : DF :=
  DF.mk df.cols (df.rows.filter (fun r =>
    vltInt (df.cell r "Closing Rank") user_rank && rowQS df quota seat_type r))

/-- The moderate filter: Opening Rank <= user_rank <= Closing Rank, plus
quota and seat type. -/
def modBucket (df : DF) (user_rank : Int) (quota seat_type : String) : DF :=
  DF.mk df.cols (df.rows.filter (fun r =>
    vleInt (df.cell r "Opening Rank") user_rank &&
      (vgeInt (df.cell r "Closing Rank") user_rank && rowQS df quota seat_type r)))

/-- The safe filter: Opening Rank > user_rank, plus quota and seat type. -/
def safeBucket (df : DF) (user_rank : Int) (quota seat_type : String) : DF :=
  DF.mk df.cols (df.rows.filter (fun r =>
    vgtInt (df.cell r "Opening Rank") user_rank && rowQS df quota seat_type r))

/-- classify_colleges of ranpredictor.py.  The first component of the result
is the caller-visible state of the input table after the call: the source
coerces the rank columns of the passed-in frame in place before taking the
copy to which Chance and Deviation are added.  The remaining components are
the ambitious, moderate and safe buckets.  none models the KeyError raised
when a required column is absent. -/
def classify_colleges (df : DF) (user_rank : Int) (quota seat_type : String) :
    Option (DF × DF × DF × DF) :=
  match coerceRankCols df, classify_table df user_rank with
  | some dfA, some d3 =>
    if (colIdx "Quota" d3.cols).isSome && (colIdx "Seat Type" d3.cols).isSome then
      some (dfA, ambBucket d3 user_rank quota seat_type,
        modBucket d3 user_rank quota seat_type,
        safeBucket d3 user_rank quota seat_type)
    else none
  | _, _ => none

/-! Helper lemmas about cells, indices and masks. -/

lemma toNumeric_idem (v : Val) : toNumeric (toNumeric v) = toNumeric v := by
  cases v with
  | na => rfl
  | num x => rfl
  | str s =>
    show toNumeric (toNumeric (Val.str s)) = toNumeric (Val.str s)
    cases h : parseIntChars s.data <;> simp [toNumeric, h]

lemma set_getD_id {α : Type} : ∀ (r : List α) (i : Nat) (d : α),
    r.set i (r.getD i d) = r := by
  intro r
  induction r with
  | nil => intro i d; rfl
  | cons a t ih =>
    intro i d
    cases i with
    | zero => rfl
    | succ j =>
      show a :: t.set j (t.getD j d) = a :: t
      rw [ih]

lemma getD_set_self {α : Type} : ∀ (r : List α) (i : Nat) (v d : α),
    i < r.length → (r.set i v).getD i d = v := by
  intro r
  induction r with
  | nil => intro i v d h; simp at h
  | cons a t ih =>
    intro i v d h
    cases i with
    | zero => rfl
    | succ j =>
      show (t.set j v).getD j d = v
      exact ih j v d (by simpa using h)

lemma getD_set_ne {α : Type} : ∀ (r : List α) (i j : Nat) (v d : α),
    i ≠ j → (r.set i v).getD j d = r.getD j d := by
  intro r
  induction r with
  | nil => intro i j v d _; rfl
  | cons a t ih =>
    intro i j v d hne
    cases i with
    | zero =>
      cases j with
      | zero => exact absurd rfl hne
      | succ k => rfl
    | succ m =>
      cases j with
      | zero => rfl
      | succ k =>
        show (t.set m v).getD k d = t.getD k d
        exact ih m k v d (fun h => hne (by rw [h]))

lemma getD_append_lt {α : Type} : ∀ (r s : List α) (j : Nat) (d : α),
    j < r.length → (r ++ s).getD j d = r.getD j d := by
  intro r
  induction r with
  | nil => intro s j d h; simp at h
  | cons a t ih =>
    intro s j d h
    cases j with
    | zero => rfl
    | succ k =>
      show (t ++ s).getD k d = t.getD k d
      exact ih s k d (by simpa using h)

lemma getD_append_len {α : Type} : ∀ (r : List α) (v d : α),
    (r ++ [v]).getD r.length d = v := by
  intro r
  induction r with
  | nil => intro v d; rfl
  | cons a t ih =>
    intro v d
    show (t ++ [v]).getD t.length d = v
    exact ih v d

lemma colIdx_lt_length : ∀ (name : String) (cols : List String) (i : Nat),
    colIdx name cols = some i → i < cols.length := by
  intro name cols
  induction cols with
  | nil => intro i h; simp [colIdx] at h
  | cons c cs ih =>
    intro i h
    simp only [colIdx] at h
    by_cases hc : (c == name) = true
    · rw [if_pos hc] at h
      cases h
      simp
    · rw [if_neg hc] at h
      cases hcs : colIdx name cs with
      | none => rw [hcs] at h; simp at h
      | some j =>
        rw [hcs] at h
        have hji : j + 1 = i := by simpa using h
        have := ih j hcs
        simp only [List.length_cons]
        omega

lemma colIdx_getD : ∀ (name : String) (cols : List String) (i : Nat),
    colIdx name cols = some i → cols.getD i "" = name := by
  intro name cols
  induction cols with
  | nil => intro i h; simp [colIdx] at h
  | cons c cs ih =>
    intro i h
    simp only [colIdx] at h
    by_cases hc : (c == name) = true
    · rw [if_pos hc] at h
      cases h
      exact eq_of_beq hc
    · rw [if_neg hc] at h
      cases hcs : colIdx name cs with
      | none => rw [hcs] at h; simp at h
      | some j =>
        rw [hcs] at h
        have hji : j + 1 = i := by simpa using h
        subst hji
        exact ih j hcs

lemma colIdx_ne_of_names_ne {a b : String} {cols : List String} {i j : Nat}
    (ha : colIdx a cols = some i) (hb : colIdx b cols = some j)
    (hab : a ≠ b) : i ≠ j := by
  intro hij
  apply hab
  rw [← colIdx_getD a cols i ha, ← colIdx_getD b cols j hb, hij]

lemma colIdx_append_left : ∀ (name : String) (cols ys : List String) (i : Nat),
    colIdx name cols = some i → colIdx name (cols ++ ys) = some i := by
  intro name cols
  induction cols with
  | nil => intro ys i h; simp [colIdx] at h
  | cons c cs ih =>
    intro ys i h
    rw [List.cons_append]
    simp only [colIdx] at h ⊢
    by_cases hc : (c == name) = true
    · rw [if_pos hc] at h ⊢
      exact h
    · rw [if_neg hc] at h ⊢
      cases hcs : colIdx name cs with
      | none => rw [hcs] at h; simp at h
      | some j =>
        rw [hcs] at h
        rw [ih ys j hcs]
        exact h

lemma colIdx_append_none_self : ∀ (name : String) (cols : List String),
    colIdx name cols = none → colIdx name (cols ++ [name]) = some cols.length := by
  intro name cols
  induction cols with
  | nil => simp [colIdx]
  | cons c cs ih =>
    intro h
    rw [List.cons_append]
    simp only [colIdx] at h ⊢
    by_cases hc : (c == name) = true
    · rw [if_pos hc] at h
      simp at h
    · rw [if_neg hc] at h ⊢
      have hcs : colIdx name cs = none := by
        cases hx : colIdx name cs with
        | none => rfl
        | some j => rw [hx] at h; simp at h
      rw [ih hcs]
      rfl

lemma map_id_of_mem {α : Type} : ∀ (l : List α) (f : α → α),
    (∀ x ∈ l, f x = x) → l.map f = l := by
  intro l
  induction l with
  | nil => intro f _; rfl
  | cons a t ih =>
    intro f h
    show f a :: t.map f = a :: t
    rw [h a (List.mem_cons_self a t), ih f (fun x hx => h x (List.mem_cons_of_mem a hx))]

lemma applyMask_all_true {α : Type} : ∀ (m : List Bool) (xs : List α),
    (∀ b ∈ m, b = true) → xs.length ≤ m.length → applyMask m xs = xs := by
  intro m
  induction m with
  | nil =>
    intro xs _ hlen
    cases xs with
    | nil => rfl
    | cons x t => simp at hlen
  | cons b bs ih =>
    intro xs hm hlen
    cases xs with
    | nil => rfl
    | cons x t =>
      have hb : b = true := hm b (List.mem_cons_self b bs)
      subst hb
      show applyMask (true :: bs) (x :: t) = x :: t
      have : applyMask (true :: bs) (x :: t) = x :: applyMask bs t := by
        simp [applyMask, List.zip]
      rw [this, ih t (fun c hc => hm c (List.mem_cons_of_mem true hc)) (by simpa using hlen)]

lemma applyMask_length_eq {α β : Type} : ∀ (m : List Bool) (xs : List α) (ys : List β),
    xs.length = ys.length → (applyMask m xs).length = (applyMask m ys).length := by
  intro m
  induction m with
  | nil => intro xs ys _; rfl
  | cons b bs ih =>
    intro xs ys hlen
    cases xs with
    | nil =>
      cases ys with
      | nil => rfl
      | cons y ty => simp at hlen
    | cons x tx =>
      cases ys with
      | nil => simp at hlen
      | cons y ty =>
        have htail : tx.length = ty.length := by simpa using hlen
        cases b with
        | false =>
          have hx : applyMask (false :: bs) (x :: tx) = applyMask bs tx := by
            simp [applyMask, List.zip]
          have hy : applyMask (false :: bs) (y :: ty) = applyMask bs ty := by
            simp [applyMask, List.zip]
          rw [hx, hy]
          exact ih tx ty htail
        | true =>
          have hx : applyMask (true :: bs) (x :: tx) = x :: applyMask bs tx := by
            simp [applyMask, List.zip]
          have hy : applyMask (true :: bs) (y :: ty) = y :: applyMask bs ty := by
            simp [applyMask, List.zip]
          rw [hx, hy]
          simpa using ih tx ty htail

lemma mem_applyMask_map_pred {α : Type} (q : α → Bool) : ∀ (xs : List α) (x : α),
    x ∈ applyMask (xs.map (fun n => !(q n))) xs → q x = false := by
  intro xs
  induction xs with
  | nil => intro x h; simp [applyMask] at h
  | cons c cs ih =>
    intro x h
    cases hq : q c with
    | true =>
      have hhead : applyMask ((c :: cs).map (fun n => !(q n))) (c :: cs)
          = applyMask (cs.map (fun n => !(q n))) cs := by
        simp [applyMask, List.zip, hq]
      rw [hhead] at h
      exact ih x h
    | false =>
      have hhead : applyMask ((c :: cs).map (fun n => !(q n))) (c :: cs)
          = c :: applyMask (cs.map (fun n => !(q n))) cs := by
        simp [applyMask, List.zip, hq]
      rw [hhead] at h
      cases List.mem_cons.mp h with
      | inl hx => rw [hx]; exact hq
      | inr hx => exact ih x hx

lemma cell_eq_getD {df : DF} {n : String} {i : Nat} (h : colIdx n df.cols = some i)
    (row : List Val) : df.cell row n = row.getD i Val.na := by
  unfold DF.cell
  rw [h]

lemma addColRow_eq_set {df : DF} {name : String} {i : Nat} (f : List Val → Val)
    (row : List Val) (h : colIdx name df.cols = some i) :
    addColRow df name f row = row.set i (f row) := by
  unfold addColRow
  rw [h]

lemma addColRow_eq_append {df : DF} {name : String} (f : List Val → Val)
    (row : List Val) (h : colIdx name df.cols = none) :
    addColRow df name f row = row ++ [f row] := by
  unfold addColRow
  rw [h]

lemma setColNumeric_eq {df d : DF} {name : String}
    (h : setColNumeric df name = some d) :
    ∃ i, colIdx name df.cols = some i ∧
      d = DF.mk df.cols (df.rows.map (fun r => r.set i (toNumeric (r.getD i Val.na)))) := by
  cases hci : colIdx name df.cols with
  | none => unfold setColNumeric at h; rw [hci] at h; cases h
  | some i =>
    refine ⟨i, rfl, ?_⟩
    unfold setColNumeric at h
    rw [hci] at h
    cases h
    rfl

lemma setColNumeric_cols {df d : DF} {name : String}
    (h : setColNumeric df name = some d) : d.cols = df.cols := by
  obtain ⟨i, _, hd⟩ := setColNumeric_eq h
  rw [hd]

lemma setColNumeric_WF {df d : DF} {name : String}
    (h : setColNumeric df name = some d) (hWF : df.WF) : d.WF := by
  obtain ⟨i, _, hd⟩ := setColNumeric_eq h
  subst hd
  intro r' hr'
  obtain ⟨r, hr, heq⟩ := List.mem_map.mp hr'
  rw [← heq, List.length_set]
  exact hWF r hr

lemma coerceRankCols_eq {df dfA : DF} (h : coerceRankCols df = some dfA) :
    ∃ d1, setColNumeric df "Opening Rank" = some d1 ∧
      setColNumeric d1 "Closing Rank" = some dfA := by
  cases h1 : setColNumeric df "Opening Rank" with
  | none => unfold coerceRankCols at h; rw [h1] at h; cases h
  | some d1 =>
    refine ⟨d1, rfl, ?_⟩
    unfold coerceRankCols at h
    rw [h1] at h
    exact h

lemma coerceRankCols_cols {df dfA : DF} (h : coerceRankCols df = some dfA) :
    dfA.cols = df.cols := by
  obtain ⟨d1, h1, h2⟩ := coerceRankCols_eq h
  rw [setColNumeric_cols h2, setColNumeric_cols h1]

lemma coerceRankCols_WF {df dfA : DF} (h : coerceRankCols df = some dfA)
    (hWF : df.WF) : dfA.WF := by
  obtain ⟨d1, h1, h2⟩ := coerceRankCols_eq h
  exact setColNumeric_WF h2 (setColNumeric_WF h1 hWF)

lemma coerceRankCols_hasOR {df dfA : DF} (h : coerceRankCols df = some dfA) :
    (colIdx "Opening Rank" dfA.cols).isSome := by
  obtain ⟨d1, h1, h2⟩ := coerceRankCols_eq h
  obtain ⟨i, hi, _⟩ := setColNumeric_eq h1
  rw [coerceRankCols_cols h, hi]
  rfl

lemma coerceRankCols_hasCR {df dfA : DF} (h : coerceRankCols df = some dfA) :
    (colIdx "Closing Rank" dfA.cols).isSome := by
  obtain ⟨d1, h1, h2⟩ := coerceRankCols_eq h
  obtain ⟨i, hi, _⟩ := setColNumeric_eq h2
  rw [setColNumeric_cols h2, hi]
  rfl

lemma addCol_rows (df : DF) (name : String) (f : List Val → Val) :
    (addCol df name f).rows = df.rows.map (addColRow df name f) := rfl

lemma addCol_WF {df : DF} {name : String} {f : List Val → Val} (hWF : df.WF) :
    (addCol df name f).WF := by
  intro r' hr'
  rw [addCol_rows] at hr'
  obtain ⟨r, hr, heq⟩ := List.mem_map.mp hr'
  subst heq
  cases hci : colIdx name df.cols with
  | some i =>
    have hcols : (addCol df name f).cols = df.cols := by
      unfold addCol
      rw [hci]
      rfl
    rw [hcols, addColRow_eq_set f r hci, List.length_set]
    exact hWF r hr
  | none =>
    have hcols : (addCol df name f).cols = df.cols ++ [name] := by
      unfold addCol
      rw [hci]
      rfl
    rw [hcols, addColRow_eq_append f r hci, List.length_append, List.length_append]
    simp [hWF r hr]

lemma mem_addCol_rows {df : DF} {name : String} {f : List Val → Val} {row' : List Val} :
    row' ∈ (addCol df name f).rows ↔ ∃ row ∈ df.rows, addColRow df name f row = row' := by
  unfold addCol
  exact List.mem_map

lemma addCol_hasCol (df : DF) (name : String) (f : List Val → Val) :
    (colIdx name (addCol df name f).cols).isSome := by
  unfold addCol
  cases hci : colIdx name df.cols with
  | some i => simp [hci]
  | none => simp [hci, colIdx_append_none_self name df.cols hci]

lemma addCol_keepsCol {df : DF} {n : String} (name : String) (f : List Val → Val)
    (h : (colIdx n df.cols).isSome) :
    (colIdx n (addCol df name f).cols).isSome := by
  unfold addCol
  obtain ⟨j, hj⟩ := Option.isSome_iff_exists.mp h
  cases hci : colIdx name df.cols with
  | some i => simp [hci, hj]
  | none => simp [hci, colIdx_append_left n df.cols [name] j hj]

lemma addCol_cell_self (df : DF) (name : String) (f : List Val → Val) (row : List Val)
    (hlen : row.length = df.cols.length) :
    (addCol df name f).cell (addColRow df name f row) name = f row := by
  cases hci : colIdx name df.cols with
  | some i =>
    have hi : i < df.cols.length := colIdx_lt_length name df.cols i hci
    have hcols : (addCol df name f).cols = df.cols := by
      unfold addCol
      rw [hci]
      rfl
    have hidx : colIdx name (addCol df name f).cols = some i := by rw [hcols, hci]
    rw [cell_eq_getD hidx, addColRow_eq_set f row hci]
    exact getD_set_self row i (f row) Val.na (by omega)
  | none =>
    have hcols : (addCol df name f).cols = df.cols ++ [name] := by
      unfold addCol
      rw [hci]
      rfl
    have hidx : colIdx name (addCol df name f).cols = some df.cols.length := by
      rw [hcols]
      exact colIdx_append_none_self name df.cols hci
    rw [cell_eq_getD hidx, addColRow_eq_append f row hci, ← hlen]
    exact getD_append_len row (f row) Val.na

lemma addCol_cell_ne (df : DF) (name : String) (f : List Val → Val) (row : List Val)
    {n : String} (hlen : row.length = df.cols.length) (hne : n ≠ name)
    (hpres : (colIdx n df.cols).isSome) :
    (addCol df name f).cell (addColRow df name f row) n = df.cell row n := by
  obtain ⟨j, hj⟩ := Option.isSome_iff_exists.mp hpres
  have hjlt : j < df.cols.length := colIdx_lt_length n df.cols j hj
  cases hci : colIdx name df.cols with
  | some i =>
    have hcols : (addCol df name f).cols = df.cols := by
      unfold addCol
      rw [hci]
      rfl
    have hidx : colIdx n (addCol df name f).cols = some j := by rw [hcols, hj]
    rw [cell_eq_getD hidx, addColRow_eq_set f row hci, cell_eq_getD hj]
    exact getD_set_ne row i j (f row) Val.na (colIdx_ne_of_names_ne hci hj (fun hx => hne hx.symm))
  | none =>
    have hcols : (addCol df name f).cols = df.cols ++ [name] := by
      unfold addCol
      rw [hci]
      rfl
    have hidx : colIdx n (addCol df name f).cols = some j := by
      rw [hcols]
      exact colIdx_append_left n df.cols [name] j hj
    rw [cell_eq_getD hidx, addColRow_eq_append f row hci, cell_eq_getD hj]
    exact getD_append_lt row [f row] j Val.na (by omega)

lemma classify_table_eq {df : DF} {r : Int} {d3 : DF}
    (h : classify_table df r = some d3) :
    ∃ dfA, coerceRankCols df = some dfA ∧
      d3 = addCol (addCol dfA "Chance" (chanceRow r dfA)) "Deviation"
        (devRow r (addCol dfA "Chance" (chanceRow r dfA))) := by
  cases hA : coerceRankCols df with
  | none => unfold classify_table at h; rw [hA] at h; cases h
  | some dfA =>
    refine ⟨dfA, rfl, ?_⟩
    unfold classify_table at h
    rw [hA] at h
    cases h
    rfl

lemma classify_table_WF {df d3 : DF} {r : Int}
    (h : classify_table df r = some d3) (hWF : df.WF) : d3.WF := by
  obtain ⟨dfA, hA, hd3⟩ := classify_table_eq h
  rw [hd3]
  exact addCol_WF (addCol_WF (coerceRankCols_WF hA hWF))

lemma classify_colleges_eq {df : DF} {r : Int} {q s : String} {dfA amb mo sa : DF}
    (h : classify_colleges df r q s = some (dfA, amb, mo, sa)) :
    coerceRankCols df = some dfA ∧
    ∃ d3, classify_table df r = some d3 ∧
      amb = ambBucket d3 r q s ∧ mo = modBucket d3 r q s ∧ sa = safeBucket d3 r q s := by
  unfold classify_colleges at h
  cases hA : coerceRankCols df with
  | none => rw [hA] at h; simp at h
  | some dfA' =>
    cases hT : classify_table df r with
    | none => rw [hA, hT] at h; simp at h
    | some d3 =>
      rw [hA, hT] at h
      have h' : (if ((colIdx "Quota" d3.cols).isSome && (colIdx "Seat Type" d3.cols).isSome) = true
          then some (dfA', ambBucket d3 r q s, modBucket d3 r q s, safeBucket d3 r q s)
          else none) = some (dfA, amb, mo, sa) := h
      split at h'
      · simp only [Option.some.injEq, Prod.mk.injEq] at h'
        obtain ⟨h1, h2, h3, h4⟩ := h'
        refine ⟨by rw [h1], d3, rfl, h2.symm, h3.symm, h4.symm⟩
      · cases h'

lemma classify_table_cells {df d3 : DF} {r : Int}
    (hWF : df.WF) (h : classify_table df r = some d3) :
    ∀ row ∈ d3.rows,
      d3.cell row "Chance" =
        chanceVal r (d3.cell row "Opening Rank") (d3.cell row "Closing Rank") ∧
      d3.cell row "Deviation" = devVal r (d3.cell row "Closing Rank") := by
  obtain ⟨dfA, hA, hd3⟩ := classify_table_eq h
  obtain ⟨d2, hd2⟩ : ∃ d2, addCol dfA "Chance" (chanceRow r dfA) = d2 := ⟨_, rfl⟩
  rw [hd2] at hd3
  have hWFA : dfA.WF := coerceRankCols_WF hA hWF
  have hWF2 : d2.WF := by
    rw [← hd2]
    exact addCol_WF hWFA
  have hOR : (colIdx "Opening Rank" dfA.cols).isSome := coerceRankCols_hasOR hA
  have hCR : (colIdx "Closing Rank" dfA.cols).isSome := coerceRankCols_hasCR hA
  have hORd2 : (colIdx "Opening Rank" d2.cols).isSome := by
    rw [← hd2]
    exact addCol_keepsCol "Chance" (chanceRow r dfA) hOR
  have hCRd2 : (colIdx "Closing Rank" d2.cols).isSome := by
    rw [← hd2]
    exact addCol_keepsCol "Chance" (chanceRow r dfA) hCR
  have hChd2 : (colIdx "Chance" d2.cols).isSome := by
    rw [← hd2]
    exact addCol_hasCol dfA "Chance" (chanceRow r dfA)
  intro row' hrow'
  rw [hd3, addCol_rows] at hrow'
  obtain ⟨row2, hrow2, heq2⟩ := List.mem_map.mp hrow'
  have hlen2 : row2.length = d2.cols.length := hWF2 row2 hrow2
  have hrow2' := hrow2
  rw [← hd2, addCol_rows] at hrow2'
  obtain ⟨row1, hrow1, heq1⟩ := List.mem_map.mp hrow2'
  have hlen1 : row1.length = dfA.cols.length := hWFA row1 hrow1
  subst heq2
  subst hd3
  have eCh1 : (addCol d2 "Deviation" (devRow r d2)).cell
      (addColRow d2 "Deviation" (devRow r d2) row2) "Chance" = d2.cell row2 "Chance" :=
    addCol_cell_ne d2 "Deviation" (devRow r d2) row2 hlen2 (by decide) hChd2
  have eCh2 : d2.cell row2 "Chance" = chanceRow r dfA row1 := by
    rw [← heq1, ← hd2]
    exact addCol_cell_self dfA "Chance" (chanceRow r dfA) row1 hlen1
  have eOR1 : (addCol d2 "Deviation" (devRow r d2)).cell
      (addColRow d2 "Deviation" (devRow r d2) row2) "Opening Rank"
      = d2.cell row2 "Opening Rank" :=
    addCol_cell_ne d2 "Deviation" (devRow r d2) row2 hlen2 (by decide) hORd2
  have eOR2 : d2.cell row2 "Opening Rank" = dfA.cell row1 "Opening Rank" := by
    rw [← heq1, ← hd2]
    exact addCol_cell_ne dfA "Chance" (chanceRow r dfA) row1 hlen1 (by decide) hOR
  have eCR1 : (addCol d2 "Deviation" (devRow r d2)).cell
      (addColRow d2 "Deviation" (devRow r d2) row2) "Closing Rank"
      = d2.cell row2 "Closing Rank" :=
    addCol_cell_ne d2 "Deviation" (devRow r d2) row2 hlen2 (by decide) hCRd2
  have eCR2 : d2.cell row2 "Closing Rank" = dfA.cell row1 "Closing Rank" := by
    rw [← heq1, ← hd2]
    exact addCol_cell_ne dfA "Chance" (chanceRow r dfA) row1 hlen1 (by decide) hCR
  have eDev : (addCol d2 "Deviation" (devRow r d2)).cell
      (addColRow d2 "Deviation" (devRow r d2) row2) "Deviation" = devRow r d2 row2 :=
    addCol_cell_self d2 "Deviation" (devRow r d2) row2 hlen2
  constructor
  · rw [eCh1, eCh2, eOR1, eOR2, eCR1, eCR2]
    rfl
  · rw [eDev, eCR1]
    rfl

lemma mem_ambBucket {d3 : DF} {r : Int} {q s : String} {row : List Val} :
    row ∈ (ambBucket d3 r q s).rows ↔
      row ∈ d3.rows ∧
        (vltInt (d3.cell row "Closing Rank") r && rowQS d3 q s row) = true := by
  unfold ambBucket
  exact List.mem_filter

lemma mem_modBucket {d3 : DF} {r : Int} {q s : String} {row : List Val} :
    row ∈ (modBucket d3 r q s).rows ↔
      row ∈ d3.rows ∧
        (vleInt (d3.cell row "Opening Rank") r &&
          (vgeInt (d3.cell row "Closing Rank") r && rowQS d3 q s row)) = true := by
  unfold modBucket
  exact List.mem_filter

lemma mem_safeBucket {d3 : DF} {r : Int} {q s : String} {row : List Val} :
    row ∈ (safeBucket d3 r q s).rows ↔
      row ∈ d3.rows ∧
        (vgtInt (d3.cell row "Opening Rank") r && rowQS d3 q s row) = true := by
  unfold safeBucket
  exact List.mem_filter

/-! Witness fixtures: one small concrete admission table and its derived
working table for user rank 150. -/

/-- A concrete admission table used by several witnesses. -/
def wtab : DF :=
  DF.mk ["Quota", "Seat Type", "Opening Rank", "Closing Rank"]
    [[Val.str "AI", Val.str "OPEN", Val.num 100, Val.num 200]]

/-- The classifier working table derived from wtab at user rank 150. -/
def wtabT : DF :=
  DF.mk ["Quota", "Seat Type", "Opening Rank", "Closing Rank", "Chance", "Deviation"]
    [[Val.str "AI", Val.str "OPEN", Val.num 100, Val.num 200, Val.num 50, Val.num (-50)]]

/-- The single row of the witness working table. -/
def wrow : List Val :=
  [Val.str "AI", Val.str "OPEN", Val.num 100, Val.num 200, Val.num 50, Val.num (-50)]

/-- C2 (counterexample): the claim asserts calculate_chances returns 10
whenever user_rank > closing_rank, for all integer arguments; at
user_rank 5, opening_rank 10, closing_rank 1 the user rank exceeds the
closing rank, yet the first branch fires and the function returns 90. -/
theorem C2_cex :
    (5 : Int) > (1 : Int) ∧ calculate_chances 5 10 1 = 90 ∧
      ¬ calculate_chances 5 10 1 = 10 := by
  decide

/-- C2 (amended): calculate_chances returns 90 when user_rank <= opening_rank;
it returns 10 when user_rank > closing_rank provided the 90-branch did not
fire first (user_rank > opening_rank); at user_rank == opening_rank ==
closing_rank it returns the capped 90 without reaching the dividing branch;
and whenever the dividing branch is reached its divisor is nonzero. -/
theorem C2_branch_values (r o c : Int) :
    (r ≤ o → calculate_chances r o c = 90) ∧
    (¬ r ≤ o → c < r → calculate_chances r o c = 10) ∧
    calculate_chances r r r = 90 ∧
    (¬ r ≤ o → r ≤ c → c - o ≠ 0) := by
  refine ⟨?_, ?_, ?_, ?_⟩
  · intro h
    unfold calculate_chances
    rw [if_pos h]
  · intro h1 h2
    unfold calculate_chances
    rw [if_neg h1, if_pos h2]
  · unfold calculate_chances
    rw [if_pos (le_refl r)]
  · intro h1 h2
    omega

/-- C2 witness: the amended branch facts evaluated at concrete ranks. -/
theorem C2_branch_values_w :
    calculate_chances 2 3 5 = 90 ∧ calculate_chances 9 3 5 = 10 ∧
      (5 : Int) - 3 ≠ 0 :=
  ⟨(C2_branch_values 2 3 5).1 (by decide),
   (C2_branch_values 9 3 5).2.1 (by decide) (by decide),
   (C2_branch_values 4 3 5).2.2.2 (by decide) (by decide)⟩

/-- C3: for opening_rank < user_rank <= closing_rank, calculate_chances is
the linear interpolation 10 + 80 * (closing - user) / (closing - opening)
truncated to an integer (the rational value floored), and the spec example
calculate_chances 750 500 1000 = 50 holds. -/
theorem C3_interpolation (r o c : Int) (h1 : o < r) (h2 : r ≤ c) :
    calculate_chances r o c =
      ⌊(10 : ℚ) + 80 * (((c : Int) : ℚ) - ((r : Int) : ℚ)) /
        (((c : Int) : ℚ) - ((o : Int) : ℚ))⌋ ∧
    calculate_chances 750 500 1000 = 50 := by
  constructor
  · have hb : (0 : Int) < c - o := by omega
    have hformula : calculate_chances r o c = 10 + 80 * (c - r) / (c - o) := by
      unfold calculate_chances
      rw [if_neg (by omega), if_neg (by omega)]
    have htn : (((c - o).toNat : Int)) = c - o := Int.toNat_of_nonneg (le_of_lt hb)
    have h3 : (((c - o).toNat : ℕ) : ℚ) = ((c : Int) : ℚ) - ((o : Int) : ℚ) := by
      have h4 := congrArg (fun z : Int => (z : ℚ)) htn
      push_cast at h4
      exact h4
    have hcast : (10 : ℚ) + 80 * (((c : Int) : ℚ) - ((r : Int) : ℚ)) /
        (((c : Int) : ℚ) - ((o : Int) : ℚ))
        = ((10 : Int) : ℚ) + ((80 * (c - r) : Int) : ℚ) / (((c - o).toNat : ℕ) : ℚ) := by
      rw [h3]
      push_cast
      ring
    rw [hformula, hcast, Int.floor_int_add, Rat.floor_intCast_div_natCast, htn]
  · decide

/-- C3 witness: the interpolation identity and example at the spec's
concrete ranks 750, 500, 1000. -/
theorem C3_interpolation_w :
    calculate_chances 750 500 1000 =
      ⌊(10 : ℚ) + 80 * (((1000 : Int) : ℚ) - ((750 : Int) : ℚ)) /
        (((1000 : Int) : ℚ) - ((500 : Int) : ℚ))⌋ ∧
    calculate_chances 750 500 1000 = 50 :=
  C3_interpolation 750 500 1000 (by decide) (by decide)

/-- C8: calculate_chances always lies in [0, 100], and every row of the
classifier working table carries a derived Chance cell holding an integer
in [0, 100] (rows with missing ranks get the default 0). -/
theorem C8_chance_range (r o c : Int) (df d3 : DF) (row : List Val)
    (hWF : df.WF) (h : classify_table df r = some d3) (hrow : row ∈ d3.rows) :
    (0 ≤ calculate_chances r o c ∧ calculate_chances r o c ≤ 100) ∧
    ∃ k : Int, d3.cell row "Chance" = Val.num k ∧ 0 ≤ k ∧ k ≤ 100 := by
  have hrange : ∀ a b : Int, 0 ≤ calculate_chances r a b ∧ calculate_chances r a b ≤ 100 := by
    intro a b
    unfold calculate_chances
    split_ifs with hb1 hb2
    · exact ⟨by omega, by omega⟩
    · exact ⟨by omega, by omega⟩
    · have hd : (0 : Int) < b - a := by omega
      have hq0 : 0 ≤ 80 * (b - r) / (b - a) := Int.ediv_nonneg (by omega) (by omega)
      have hq80 : 80 * (b - r) / (b - a) < 80 :=
        (Int.ediv_lt_iff_lt_mul hd).mpr (by omega)
      have key : ∀ q : Int, 0 ≤ q → q < 80 → 0 ≤ 10 + q ∧ 10 + q ≤ 100 := by
        intro q hk1 hk2
        omega
      exact key _ hq0 hq80
  refine ⟨hrange o c, ?_⟩
  obtain ⟨hch, _⟩ := classify_table_cells hWF h row hrow
  rw [hch]
  unfold chanceVal
  cases d3.cell row "Opening Rank" with
  | num a =>
    cases d3.cell row "Closing Rank" with
    | na => exact ⟨0, rfl, by omega, by omega⟩
    | num b => exact ⟨calculate_chances r a b, rfl, (hrange a b).1, (hrange a b).2⟩
    | str t => exact ⟨0, rfl, by omega, by omega⟩
  | na =>
    cases d3.cell row "Closing Rank" with
    | na => exact ⟨0, rfl, by omega, by omega⟩
    | num b => exact ⟨0, rfl, by omega, by omega⟩
    | str t => exact ⟨0, rfl, by omega, by omega⟩
  | str t =>
    cases d3.cell row "Closing Rank" with
    | na => exact ⟨0, rfl, by omega, by omega⟩
    | num b => exact ⟨0, rfl, by omega, by omega⟩
    | str u => exact ⟨0, rfl, by omega, by omega⟩

/-- C8 witness: the range facts at the concrete witness table and rank 150. -/
theorem C8_chance_range_w :
    (0 ≤ calculate_chances 150 100 200 ∧ calculate_chances 150 100 200 ≤ 100) ∧
    ∃ k : Int, wtabT.cell wrow "Chance" = Val.num k ∧ 0 ≤ k ∧ k ≤ 100 :=
  C8_chance_range 150 100 200 wtab wtabT wrow (by decide) (by decide) (by decide)

/-- C1: for any row of the classifier working table with non-missing numeric
ranks satisfying opening_rank <= closing_rank that matches the selected
quota and seat type, exactly one of the three buckets returned by
classify_colleges contains the row: the partition into Ambitious
(closing < user), Moderate (opening <= user <= closing) and Safe
(opening > user) is mutually exclusive and collectively exhaustive. -/
theorem C1_bucket_partition (df : DF) (r : Int) (q s : String)
    (dfA amb mo sa d3 : DF) (row : List Val) (o c : Int)
    (hct : classify_table df r = some d3)
    (hcl : classify_colleges df r q s = some (dfA, amb, mo, sa))
    (hrow : row ∈ d3.rows)
    (ho : d3.cell row "Opening Rank" = Val.num o)
    (hc : d3.cell row "Closing Rank" = Val.num c)
    (hoc : o ≤ c)
    (hq : veqStr (d3.cell row "Quota") q = true)
    (hs : veqStr (d3.cell row "Seat Type") s = true) :
    (row ∈ amb.rows ∧ row ∉ mo.rows ∧ row ∉ sa.rows) ∨
    (row ∉ amb.rows ∧ row ∈ mo.rows ∧ row ∉ sa.rows) ∨
    (row ∉ amb.rows ∧ row ∉ mo.rows ∧ row ∈ sa.rows) := by
  obtain ⟨hA, d3', hT, hamb, hmo, hsa⟩ := classify_colleges_eq hcl
  rw [hct] at hT
  injection hT with hdd
  subst hdd
  subst hamb
  subst hmo
  subst hsa
  have hQS : rowQS d3 q s row = true := by
    unfold rowQS
    rw [hq, hs]
    rfl
  have hAmbIff : row ∈ (ambBucket d3 r q s).rows ↔ c < r := by
    rw [mem_ambBucket, hc]
    simp [vltInt, hQS, hrow]
  have hModIff : row ∈ (modBucket d3 r q s).rows ↔ (o ≤ r ∧ r ≤ c) := by
    rw [mem_modBucket, ho, hc]
    simp [vleInt, vgeInt, hQS, hrow]
  have hSafeIff : row ∈ (safeBucket d3 r q s).rows ↔ r < o := by
    rw [mem_safeBucket, ho]
    simp [vgtInt, hQS, hrow]
  by_cases hcr : c < r
  · left
    refine ⟨hAmbIff.mpr hcr, ?_, ?_⟩
    · intro hm
      have := hModIff.mp hm
      omega
    · intro hm
      have := hSafeIff.mp hm
      omega
  · by_cases hor : o ≤ r
    · right
      left
      refine ⟨?_, hModIff.mpr ⟨hor, by omega⟩, ?_⟩
      · intro hm
        have := hAmbIff.mp hm
        omega
      · intro hm
        have := hSafeIff.mp hm
        omega
    · right
      right
      refine ⟨?_, ?_, hSafeIff.mpr (by omega)⟩
      · intro hm
        have := hAmbIff.mp hm
        omega
      · intro hm
        have := hModIff.mp hm
        omega

/-- C1 witness: the moderate case of the partition at the concrete witness
table and user rank 150, where 100 <= 150 <= 200. -/
theorem C1_bucket_partition_w :
    (wrow ∈ (ambBucket wtabT 150 "AI" "OPEN").rows ∧
        wrow ∉ (modBucket wtabT 150 "AI" "OPEN").rows ∧
        wrow ∉ (safeBucket wtabT 150 "AI" "OPEN").rows) ∨
    (wrow ∉ (ambBucket wtabT 150 "AI" "OPEN").rows ∧
        wrow ∈ (modBucket wtabT 150 "AI" "OPEN").rows ∧
        wrow ∉ (safeBucket wtabT 150 "AI" "OPEN").rows) ∨
    (wrow ∉ (ambBucket wtabT 150 "AI" "OPEN").rows ∧
        wrow ∉ (modBucket wtabT 150 "AI" "OPEN").rows ∧
        wrow ∈ (safeBucket wtabT 150 "AI" "OPEN").rows) :=
  C1_bucket_partition wtab 150 "AI" "OPEN" wtab (ambBucket wtabT 150 "AI" "OPEN")
    (modBucket wtabT 150 "AI" "OPEN") (safeBucket wtabT 150 "AI" "OPEN") wtabT wrow
    100 200 (by decide) (by decide) (by decide) (by decide) (by decide) (by decide)
    (by decide) (by decide)

/-- A concrete table whose single row has a missing opening rank. -/
def cdf4 : DF :=
  DF.mk ["Quota", "Seat Type", "Opening Rank", "Closing Rank"]
    [[Val.str "AI", Val.str "OPEN", Val.na, Val.num 7]]

/-- The classifier working table of cdf4 at user rank 150. -/
def cdf4T : DF :=
  DF.mk ["Quota", "Seat Type", "Opening Rank", "Closing Rank", "Chance", "Deviation"]
    [[Val.str "AI", Val.str "OPEN", Val.na, Val.num 7, Val.num 0, Val.num 143]]

/-- The single working row of cdf4T. -/
def crow4 : List Val :=
  [Val.str "AI", Val.str "OPEN", Val.na, Val.num 7, Val.num 0, Val.num 143]

/-- C4 (counterexample): the claim says a row with a missing opening rank
appears in none of the three buckets, but the ambitious filter consults only
the closing rank, so cdf4's row (opening missing, closing 7 < 150) lands in
the ambitious bucket. -/
theorem C4_cex :
    classify_colleges cdf4 150 "AI" "OPEN" =
      some (cdf4, ambBucket cdf4T 150 "AI" "OPEN", modBucket cdf4T 150 "AI" "OPEN",
        safeBucket cdf4T 150 "AI" "OPEN") ∧
    cdf4T.cell crow4 "Opening Rank" = Val.na ∧
    crow4 ∈ (ambBucket cdf4T 150 "AI" "OPEN").rows := by
  decide

/-- C4 (amended): after coercion, a row with a missing closing rank is in
neither the ambitious nor the moderate bucket, and a row with a missing
opening rank is in neither the moderate nor the safe bucket (it can still
appear in ambitious, whose filter reads only the closing rank; in
particular a row missing both ranks is in no bucket); any row with a
missing rank on either side gets the defensive derived Chance 0 rather
than an error. -/
theorem C4_missing_ranks (df : DF) (r : Int) (q s : String)
    (dfA amb mo sa d3 : DF) (row : List Val)
    (hWF : df.WF)
    (hct : classify_table df r = some d3)
    (hcl : classify_colleges df r q s = some (dfA, amb, mo, sa))
    (hrow : row ∈ d3.rows) :
    (d3.cell row "Closing Rank" = Val.na → row ∉ amb.rows ∧ row ∉ mo.rows) ∧
    (d3.cell row "Opening Rank" = Val.na → row ∉ mo.rows ∧ row ∉ sa.rows) ∧
    ((d3.cell row "Opening Rank" = Val.na ∨ d3.cell row "Closing Rank" = Val.na) →
      d3.cell row "Chance" = Val.num 0) := by
  obtain ⟨hA, d3', hT, hamb, hmo, hsa⟩ := classify_colleges_eq hcl
  rw [hct] at hT
  injection hT with hdd
  subst hdd
  subst hamb
  subst hmo
  subst hsa
  refine ⟨?_, ?_, ?_⟩
  · intro hna
    constructor
    · intro hm
      obtain ⟨_, hpred⟩ := mem_ambBucket.mp hm
      rw [hna] at hpred
      simp [vltInt] at hpred
    · intro hm
      obtain ⟨_, hpred⟩ := mem_modBucket.mp hm
      rw [hna] at hpred
      simp [vgeInt] at hpred
  · intro hna
    constructor
    · intro hm
      obtain ⟨_, hpred⟩ := mem_modBucket.mp hm
      rw [hna] at hpred
      simp [vleInt] at hpred
    · intro hm
      obtain ⟨_, hpred⟩ := mem_safeBucket.mp hm
      rw [hna] at hpred
      simp [vgtInt] at hpred
  · intro hna
    obtain ⟨hch, _⟩ := classify_table_cells hWF hct row hrow
    rw [hch]
    cases hna with
    | inl h =>
      rw [h]
      cases hcc : d3.cell row "Closing Rank" <;> rfl
    | inr h =>
      rw [h]
      cases hoo : d3.cell row "Opening Rank" <;> rfl

/-- C4 witness: the amended bucket exclusions and the default Chance 0 at
the concrete missing-opening-rank table. -/
theorem C4_missing_ranks_w :
    (cdf4T.cell crow4 "Closing Rank" = Val.na →
        crow4 ∉ (ambBucket cdf4T 150 "AI" "OPEN").rows ∧
        crow4 ∉ (modBucket cdf4T 150 "AI" "OPEN").rows) ∧
    (cdf4T.cell crow4 "Opening Rank" = Val.na →
        crow4 ∉ (modBucket cdf4T 150 "AI" "OPEN").rows ∧
        crow4 ∉ (safeBucket cdf4T 150 "AI" "OPEN").rows) ∧
    ((cdf4T.cell crow4 "Opening Rank" = Val.na ∨
        cdf4T.cell crow4 "Closing Rank" = Val.na) →
      cdf4T.cell crow4 "Chance" = Val.num 0) :=
  C4_missing_ranks cdf4 150 "AI" "OPEN" cdf4 (ambBucket cdf4T 150 "AI" "OPEN")
    (modBucket cdf4T 150 "AI" "OPEN") (safeBucket cdf4T 150 "AI" "OPEN") cdf4T crow4
    (by decide) (by decide) (by decide) (by decide)

/-- A concrete table whose single row has inverted ranks: opening 100,
closing 7. -/
def cdf9 : DF :=
  DF.mk ["Quota", "Seat Type", "Opening Rank", "Closing Rank"]
    [[Val.str "AI", Val.str "OPEN", Val.num 100, Val.num 7]]

/-- The classifier working table of cdf9 at user rank 50. -/
def cdf9T : DF :=
  DF.mk ["Quota", "Seat Type", "Opening Rank", "Closing Rank", "Chance", "Deviation"]
    [[Val.str "AI", Val.str "OPEN", Val.num 100, Val.num 7, Val.num 90, Val.num 43]]

/-- The single working row of cdf9T. -/
def crow9 : List Val :=
  [Val.str "AI", Val.str "OPEN", Val.num 100, Val.num 7, Val.num 90, Val.num 43]

/-- C9 (counterexample): a row with non-missing numeric ranks but an
inverted range (opening 100 > closing 7) lands in the Ambitious bucket at
user rank 50 (since 7 < 50), yet its derived Chance is the capped 90 of the
first branch (50 <= 100), not 10 as the claim asserts for Ambitious rows. -/
theorem C9_cex :
    classify_colleges cdf9 50 "AI" "OPEN" =
      some (cdf9, ambBucket cdf9T 50 "AI" "OPEN", modBucket cdf9T 50 "AI" "OPEN",
        safeBucket cdf9T 50 "AI" "OPEN") ∧
    crow9 ∈ (ambBucket cdf9T 50 "AI" "OPEN").rows ∧
    cdf9T.cell crow9 "Chance" = Val.num 90 := by
  decide

/-- C9 (amended): every Safe-bucket row with numeric ranks has derived
Chance exactly 90; every Ambitious-bucket row with numeric ranks has
derived Deviation user_rank - closing_rank, strictly positive, and has
derived Chance exactly 10 provided its opening_rank <= closing_rank (an
inverted-rank row can land in Ambitious with the capped Chance 90). -/
theorem C9_bucket_chances (df : DF) (r : Int) (q s : String)
    (dfA amb mo sa d3 : DF) (row : List Val) (o c : Int)
    (hWF : df.WF)
    (hct : classify_table df r = some d3)
    (hcl : classify_colleges df r q s = some (dfA, amb, mo, sa))
    (ho : d3.cell row "Opening Rank" = Val.num o)
    (hc : d3.cell row "Closing Rank" = Val.num c) :
    (row ∈ sa.rows → d3.cell row "Chance" = Val.num 90) ∧
    (row ∈ amb.rows →
      d3.cell row "Deviation" = Val.num (r - c) ∧ 0 < r - c ∧
      (o ≤ c → d3.cell row "Chance" = Val.num 10)) := by
  obtain ⟨hA, d3', hT, hamb, hmo, hsa⟩ := classify_colleges_eq hcl
  rw [hct] at hT
  injection hT with hdd
  subst hdd
  subst hamb
  subst hmo
  subst hsa
  constructor
  · intro hsf
    obtain ⟨hrow, hpred⟩ := mem_safeBucket.mp hsf
    rw [ho] at hpred
    simp [vgtInt] at hpred
    have hro := hpred.1
    obtain ⟨hch, _⟩ := classify_table_cells hWF hct row hrow
    rw [hch, ho, hc]
    show Val.num (calculate_chances r o c) = Val.num 90
    have hval : calculate_chances r o c = 90 := by
      unfold calculate_chances
      rw [if_pos (by omega : r ≤ o)]
    rw [hval]
  · intro hab
    obtain ⟨hrow, hpred⟩ := mem_ambBucket.mp hab
    rw [hc] at hpred
    simp [vltInt] at hpred
    have hcr := hpred.1
    obtain ⟨hch, hdv⟩ := classify_table_cells hWF hct row hrow
    refine ⟨?_, by omega, ?_⟩
    · rw [hdv, hc]
      rfl
    · intro hoc
      rw [hch, ho, hc]
      show Val.num (calculate_chances r o c) = Val.num 10
      have hval : calculate_chances r o c = 10 := by
        unfold calculate_chances
        rw [if_neg (by omega), if_pos (by omega : r > c)]
      rw [hval]

/-- The classifier working table of wtab at user rank 300, where the row is
ambitious. -/
def wtabT3 : DF :=
  DF.mk ["Quota", "Seat Type", "Opening Rank", "Closing Rank", "Chance", "Deviation"]
    [[Val.str "AI", Val.str "OPEN", Val.num 100, Val.num 200, Val.num 10, Val.num 100]]

/-- The single working row of wtabT3. -/
def wrow3 : List Val :=
  [Val.str "AI", Val.str "OPEN", Val.num 100, Val.num 200, Val.num 10, Val.num 100]

/-- C9 witness: the amended bucket facts at the concrete witness table and
user rank 300, where the row is ambitious with Chance 10 and Deviation 100. -/
theorem C9_bucket_chances_w :
    (wrow3 ∈ (safeBucket wtabT3 300 "AI" "OPEN").rows →
        wtabT3.cell wrow3 "Chance" = Val.num 90) ∧
    (wrow3 ∈ (ambBucket wtabT3 300 "AI" "OPEN").rows →
      wtabT3.cell wrow3 "Deviation" = Val.num (300 - 200) ∧ (0 : Int) < 300 - 200 ∧
      ((100 : Int) ≤ 200 → wtabT3.cell wrow3 "Chance" = Val.num 10)) :=
  C9_bucket_chances wtab 300 "AI" "OPEN" wtab (ambBucket wtabT3 300 "AI" "OPEN")
    (modBucket wtabT3 300 "AI" "OPEN") (safeBucket wtabT3 300 "AI" "OPEN") wtabT3 wrow3
    100 200 (by decide) (by decide) (by decide) (by decide) (by decide)

/-- A concrete course table with a planning row, an engineering row and a
missing course name. -/
def cdf7 : DF :=
  DF.mk ["Course Name"]
    [[Val.str "B.Planning (4 Years)"], [Val.str "Civil Engineering"], [Val.na]]

/-- C7: filter_courses partitions rows by a case-insensitive substring match
of Course Name against exactly the tokens planning, architecture, design:
the B.Plan / B.Arch selection holds exactly the rows matching some token,
the B.Tech selection exactly the rows matching none, and every row with a
non-missing string course name lies in exactly one of the two selections. -/
theorem C7_course_partition (df dA dB : DF) (row : List Val) (cs : String)
    (hA : filter_courses df "B.Plan / B.Arch" = some dA)
    (hB : filter_courses df "B.Tech" = some dB)
    (hrow : row ∈ df.rows)
    (hcs : df.cell row "Course Name" = Val.str cs) :
    (row ∈ dA.rows ↔ (courseTokens.any (fun t => chSub t.data (lowerChars cs))) = true) ∧
    (row ∈ dB.rows ↔ ¬ (courseTokens.any (fun t => chSub t.data (lowerChars cs))) = true) ∧
    ((row ∈ dA.rows ∧ row ∉ dB.rows) ∨ (row ∉ dA.rows ∧ row ∈ dB.rows)) := by
  cases hci : colIdx "Course Name" df.cols with
  | none =>
    unfold filter_courses at hA
    rw [hci] at hA
    cases hA
  | some k =>
    unfold filter_courses at hA hB
    rw [hci] at hA hB
    have hA' : some (DF.mk df.cols (df.rows.filter
        (fun rr => courseMatch (df.cell rr "Course Name")))) = some dA := hA
    have hB' : some (DF.mk df.cols (df.rows.filter
        (fun rr => !courseMatch (df.cell rr "Course Name")))) = some dB := hB
    injection hA' with h1
    injection hB' with h2
    subst h1
    subst h2
    have hmA : row ∈ (DF.mk df.cols (df.rows.filter
        (fun rr => courseMatch (df.cell rr "Course Name")))).rows ↔
        courseMatch (Val.str cs) = true := by
      show row ∈ df.rows.filter (fun rr => courseMatch (df.cell rr "Course Name")) ↔ _
      rw [List.mem_filter]
      simp [hrow, hcs]
    have hmB : row ∈ (DF.mk df.cols (df.rows.filter
        (fun rr => !courseMatch (df.cell rr "Course Name")))).rows ↔
        ¬ courseMatch (Val.str cs) = true := by
      show row ∈ df.rows.filter (fun rr => !courseMatch (df.cell rr "Course Name")) ↔ _
      rw [List.mem_filter]
      simp [hrow, hcs]
    refine ⟨?_, ?_, ?_⟩
    · rw [hmA]
      exact Iff.rfl
    · rw [hmB]
      exact Iff.rfl
    · by_cases hm : courseMatch (Val.str cs) = true
      · left
        exact ⟨hmA.mpr hm, fun hcon => (hmB.mp hcon) hm⟩
      · right
        exact ⟨fun hcon => hm (hmA.mp hcon), hmB.mpr hm⟩

/-- C7 witness: the planning row of the concrete course table matches a
token and lies exactly in the B.Plan / B.Arch selection. -/
theorem C7_course_partition_w :
    ([Val.str "B.Planning (4 Years)"] ∈
        (DF.mk ["Course Name"] [[Val.str "B.Planning (4 Years)"]]).rows ↔
      (courseTokens.any
        (fun t => chSub t.data (lowerChars "B.Planning (4 Years)"))) = true) ∧
    ([Val.str "B.Planning (4 Years)"] ∈
        (DF.mk ["Course Name"] [[Val.str "Civil Engineering"], [Val.na]]).rows ↔
      ¬ (courseTokens.any
        (fun t => chSub t.data (lowerChars "B.Planning (4 Years)"))) = true) ∧
    (([Val.str "B.Planning (4 Years)"] ∈
          (DF.mk ["Course Name"] [[Val.str "B.Planning (4 Years)"]]).rows ∧
        [Val.str "B.Planning (4 Years)"] ∉
          (DF.mk ["Course Name"] [[Val.str "Civil Engineering"], [Val.na]]).rows) ∨
      ([Val.str "B.Planning (4 Years)"] ∉
          (DF.mk ["Course Name"] [[Val.str "B.Planning (4 Years)"]]).rows ∧
        [Val.str "B.Planning (4 Years)"] ∈
          (DF.mk ["Course Name"] [[Val.str "Civil Engineering"], [Val.na]]).rows)) :=
  C7_course_partition cdf7 (DF.mk ["Course Name"] [[Val.str "B.Planning (4 Years)"]])
    (DF.mk ["Course Name"] [[Val.str "Civil Engineering"], [Val.na]])
    [Val.str "B.Planning (4 Years)"] "B.Planning (4 Years)"
    (by decide) (by decide) (by decide) (by decide)

/-- C10: a row whose Course Name is missing matches no token (the na=False
of str.contains): filter_courses returns it in the B.Tech selection and
excludes it from the B.Plan / B.Arch selection, rather than dropping it
from both. -/
theorem C10_null_course (df dA dB : DF) (row : List Val)
    (hA : filter_courses df "B.Plan / B.Arch" = some dA)
    (hB : filter_courses df "B.Tech" = some dB)
    (hrow : row ∈ df.rows)
    (hna : df.cell row "Course Name" = Val.na) :
    row ∈ dB.rows ∧ row ∉ dA.rows := by
  cases hci : colIdx "Course Name" df.cols with
  | none =>
    unfold filter_courses at hA
    rw [hci] at hA
    cases hA
  | some k =>
    unfold filter_courses at hA hB
    rw [hci] at hA hB
    have hA' : some (DF.mk df.cols (df.rows.filter
        (fun rr => courseMatch (df.cell rr "Course Name")))) = some dA := hA
    have hB' : some (DF.mk df.cols (df.rows.filter
        (fun rr => !courseMatch (df.cell rr "Course Name")))) = some dB := hB
    injection hA' with h1
    injection hB' with h2
    subst h1
    subst h2
    constructor
    · show row ∈ df.rows.filter (fun rr => !courseMatch (df.cell rr "Course Name"))
      rw [List.mem_filter]
      refine ⟨hrow, ?_⟩
      rw [hna]
      rfl
    · intro hcon
      have hmem : row ∈ df.rows.filter (fun rr => courseMatch (df.cell rr "Course Name")) := hcon
      have hp := (List.mem_filter.mp hmem).2
      rw [hna] at hp
      cases hp

/-- C10 witness: the missing-course-name row of the concrete course table
lies in the B.Tech selection and not in the B.Plan / B.Arch selection. -/
theorem C10_null_course_w :
    [Val.na] ∈ (DF.mk ["Course Name"] [[Val.str "Civil Engineering"], [Val.na]]).rows ∧
    [Val.na] ∉ (DF.mk ["Course Name"] [[Val.str "B.Planning (4 Years)"]]).rows :=
  C10_null_course cdf7 (DF.mk ["Course Name"] [[Val.str "B.Planning (4 Years)"]])
    (DF.mk ["Course Name"] [[Val.str "Civil Engineering"], [Val.na]])
    [Val.na] (by decide) (by decide) (by decide) (by decide)

/-- A concrete table whose opening rank cell is the non-numeric string abc. -/
def cdf6 : DF :=
  DF.mk ["Quota", "Seat Type", "Opening Rank", "Closing Rank"]
    [[Val.str "AI", Val.str "OPEN", Val.str "abc", Val.num 5]]

/-- The caller-visible state of cdf6 after classify_colleges: the string
rank has been coerced to missing in place. -/
def cdf6M : DF :=
  DF.mk ["Quota", "Seat Type", "Opening Rank", "Closing Rank"]
    [[Val.str "AI", Val.str "OPEN", Val.na, Val.num 5]]

/-- C6 (counterexample): classify_colleges coerces the rank columns of the
passed-in table in place before taking its copy (lines 69-73 of the
source), so a table holding a non-numeric rank string is mutated by the
call: the caller's table afterwards differs from the one passed in. -/
theorem C6_cex :
    (classify_colleges cdf6 1 "AI" "OPEN").map Prod.fst = some cdf6M ∧
      cdf6M ≠ cdf6 := by
  decide

/-- C6 (amended): classify_colleges coerces the input's rank columns in
place before taking the copy; on any input whose rank cells are already
fixed by the numeric coercion — in particular any preprocessed table —
the caller's table is left unchanged, the Chance and Deviation columns
existing only on the internal copy. -/
theorem C6_no_mutation (df : DF) (r : Int) (q s : String) (dfA amb mo sa : DF)
    (hfix : ∀ row ∈ df.rows,
      toNumeric (df.cell row "Opening Rank") = df.cell row "Opening Rank" ∧
      toNumeric (df.cell row "Closing Rank") = df.cell row "Closing Rank")
    (hcl : classify_colleges df r q s = some (dfA, amb, mo, sa)) :
    dfA = df := by
  obtain ⟨hA, _, _, _, _, _⟩ := classify_colleges_eq hcl
  obtain ⟨d1, h1, h2⟩ := coerceRankCols_eq hA
  obtain ⟨i, hi, hd1⟩ := setColNumeric_eq h1
  have hd1id : d1 = df := by
    rw [hd1]
    have hrows : df.rows.map (fun rr => rr.set i (toNumeric (rr.getD i Val.na))) = df.rows := by
      apply map_id_of_mem
      intro rr hrr
      have hcell : df.cell rr "Opening Rank" = rr.getD i Val.na := cell_eq_getD hi rr
      have hfx := (hfix rr hrr).1
      rw [hcell] at hfx
      rw [hfx]
      exact set_getD_id rr i Val.na
    rw [hrows]
  rw [hd1id] at h2
  obtain ⟨j, hj, hdA⟩ := setColNumeric_eq h2
  rw [hdA]
  have hrows2 : df.rows.map (fun rr => rr.set j (toNumeric (rr.getD j Val.na))) = df.rows := by
    apply map_id_of_mem
    intro rr hrr
    have hcell : df.cell rr "Closing Rank" = rr.getD j Val.na := cell_eq_getD hj rr
    have hfx := (hfix rr hrr).2
    rw [hcell] at hfx
    rw [hfx]
    exact set_getD_id rr j Val.na
  rw [hrows2]

/-- C6 witness: on the already-numeric witness table the caller's table is
unchanged by the classification call. -/
theorem C6_no_mutation_w : wtab = wtab :=
  C6_no_mutation wtab 150 "AI" "OPEN" wtab (ambBucket wtabT 150 "AI" "OPEN")
    (modBucket wtabT 150 "AI" "OPEN") (safeBucket wtabT 150 "AI" "OPEN")
    (by decide) (by decide)

/-! Lemmas for the idempotence analysis of preprocess_dataframe. -/

lemma set_oob {α : Type} : ∀ (r : List α) (i : Nat) (v : α),
    r.length ≤ i → r.set i v = r := by
  intro r
  induction r with
  | nil => intro i v _; rfl
  | cons a t ih =>
    intro i v h
    cases i with
    | zero => simp at h
    | succ k =>
      show a :: t.set k v = a :: t
      rw [ih k v (by simpa using h)]

lemma getD_oob {α : Type} : ∀ (r : List α) (i : Nat) (d : α),
    r.length ≤ i → r.getD i d = d := by
  intro r
  induction r with
  | nil => intro i d _; cases i <;> rfl
  | cons a t ih =>
    intro i d h
    cases i with
    | zero => simp at h
    | succ k =>
      show t.getD k d = d
      exact ih k d (by simpa using h)

lemma set_toNumeric_fixed (r : List Val) (i : Nat) :
    toNumeric ((r.set i (toNumeric (r.getD i Val.na))).getD i Val.na)
      = (r.set i (toNumeric (r.getD i Val.na))).getD i Val.na := by
  by_cases hlt : i < r.length
  · rw [getD_set_self r i _ Val.na hlt]
    exact toNumeric_idem _
  · rw [set_oob r i _ (by omega), getD_oob r i Val.na (by omega)]
    rfl

lemma dropColsMask_id (df : DF) (m : List Bool)
    (hlen : m.length = df.cols.length) (hall : ∀ b ∈ m, b = true)
    (hWF : df.WF) : dropColsMask df m = df := by
  unfold dropColsMask
  rw [applyMask_all_true m df.cols hall (by omega)]
  rw [map_id_of_mem df.rows (applyMask m) (fun r hr =>
    applyMask_all_true m r hall (by have := hWF r hr; omega))]

lemma dropColsMask_WF (df : DF) (m : List Bool) (hWF : df.WF) :
    (dropColsMask df m).WF := by
  intro r' hr'
  obtain ⟨r, hr, heq⟩ := List.mem_map.mp hr'
  rw [← heq]
  exact applyMask_length_eq m r df.cols (hWF r hr)

lemma dropAllNaCols_id (df : DF) (hWF : df.WF)
    (h : ∀ i, i < df.cols.length → colAllNa df i = false) :
    dropAllNaCols df = df := by
  unfold dropAllNaCols
  apply dropColsMask_id
  · simp
  · intro b hb
    simp only [List.mem_map] at hb
    obtain ⟨i, hi, hbi⟩ := hb
    rw [List.mem_range] at hi
    rw [← hbi, h i hi]
    rfl
  · exact hWF

lemma dropAllNaCols_WF (df : DF) (hWF : df.WF) : (dropAllNaCols df).WF := by
  unfold dropAllNaCols
  exact dropColsMask_WF df _ hWF

lemma dropUnnamedCols_id (df : DF) (hWF : df.WF)
    (h : ∀ n ∈ df.cols, startsUnnamed n = false) :
    dropUnnamedCols df = df := by
  unfold dropUnnamedCols
  apply dropColsMask_id
  · simp
  · intro b hb
    simp only [List.mem_map] at hb
    obtain ⟨n, hn, hbn⟩ := hb
    rw [← hbn, h n hn]
    rfl
  · exact hWF

lemma dropUnnamedCols_WF (df : DF) (hWF : df.WF) : (dropUnnamedCols df).WF := by
  unfold dropUnnamedCols
  exact dropColsMask_WF df _ hWF

lemma dropUnnamedCols_no (df : DF) :
    ∀ n ∈ (dropUnnamedCols df).cols, startsUnnamed n = false := by
  intro n hn
  exact mem_applyMask_map_pred startsUnnamed df.cols n hn

lemma setColNumeric_id (df : DF) (name : String) (i : Nat)
    (hi : colIdx name df.cols = some i)
    (hfix : ∀ r ∈ df.rows, toNumeric (r.getD i Val.na) = r.getD i Val.na) :
    setColNumeric df name = some df := by
  unfold setColNumeric
  rw [hi]
  show some (DF.mk df.cols
      (df.rows.map (fun r => r.set i (toNumeric (r.getD i Val.na))))) = some df
  rw [map_id_of_mem df.rows _ (fun r hr => by
    rw [hfix r hr]
    exact set_getD_id r i Val.na)]

lemma renameOne_idem (n : String) : renameOne (renameOne n) = renameOne n := by
  by_cases h1 : (n == "Institute") = true
  · have hr : renameOne n = "College Name" := by
      unfold renameOne
      rw [if_pos h1]
    rw [hr]
    decide
  · by_cases h2 : (n == "Academic Program Name") = true
    · have hr : renameOne n = "Course Name" := by
        unfold renameOne
        rw [if_neg h1, if_pos h2]
      rw [hr]
      decide
    · have hr : renameOne n = n := by
        unfold renameOne
        rw [if_neg h1, if_neg h2]
      rw [hr]
      exact hr

lemma renameOne_not_unnamed (n : String) (h : startsUnnamed n = false) :
    startsUnnamed (renameOne n) = false := by
  unfold renameOne
  split_ifs with h1 h2
  · decide
  · decide
  · exact h

lemma renameOne_beq_OR (m : String) :
    (renameOne m == "Opening Rank") = (m == "Opening Rank") := by
  unfold renameOne
  split_ifs with h1 h2
  · have hm : m = "Institute" := eq_of_beq h1
    subst hm
    decide
  · have hm : m = "Academic Program Name" := eq_of_beq h2
    subst hm
    decide
  · rfl

lemma renameOne_beq_CR (m : String) :
    (renameOne m == "Closing Rank") = (m == "Closing Rank") := by
  unfold renameOne
  split_ifs with h1 h2
  · have hm : m = "Institute" := eq_of_beq h1
    subst hm
    decide
  · have hm : m = "Academic Program Name" := eq_of_beq h2
    subst hm
    decide
  · rfl

lemma colIdx_map_renameOne (name : String)
    (hn : ∀ m, (renameOne m == name) = (m == name)) :
    ∀ cols : List String, colIdx name (cols.map renameOne) = colIdx name cols := by
  intro cols
  induction cols with
  | nil => rfl
  | cons c cs ih =>
    show colIdx name (renameOne c :: cs.map renameOne) = colIdx name (c :: cs)
    unfold colIdx
    rw [hn c, ih]

lemma renameCols_id (df : DF) (h : ∀ n ∈ df.cols, renameOne n = n) :
    renameCols df = df := by
  unfold renameCols
  rw [map_id_of_mem df.cols renameOne h]

lemma renameCols_WF (df : DF) (hWF : df.WF) : (renameCols df).WF := by
  intro r hr
  show r.length = (df.cols.map renameOne).length
  rw [List.length_map]
  exact hWF r hr

lemma dropNaSubset_eq {df d : DF} {names : List String}
    (h : dropNaSubset df names = some d) :
    (names.all (fun n => (colIdx n df.cols).isSome)) = true ∧
    d = DF.mk df.cols (df.rows.filter (fun r => names.all (fun n => !(df.cell r n).isNA))) := by
  unfold dropNaSubset at h
  by_cases hc : (names.all (fun n => (colIdx n df.cols).isSome)) = true
  · rw [if_pos hc] at h
    injection h with h1
    exact ⟨hc, h1.symm⟩
  · rw [if_neg hc] at h
    cases h

lemma dropNaSubset_id (df : DF) (names : List String)
    (hpres : (names.all (fun n => (colIdx n df.cols).isSome)) = true)
    (hkeep : ∀ r ∈ df.rows, (names.all (fun n => !(df.cell r n).isNA)) = true) :
    dropNaSubset df names = some df := by
  unfold dropNaSubset
  rw [if_pos hpres, List.filter_eq_self.mpr hkeep]

lemma dropNaSubset_WF {df d : DF} {names : List String}
    (h : dropNaSubset df names = some d) (hWF : df.WF) : d.WF := by
  obtain ⟨_, hd⟩ := dropNaSubset_eq h
  subst hd
  intro r hr
  exact hWF r (List.mem_filter.mp hr).1

lemma preprocess_eq {df d1 : DF} (h : preprocess_dataframe df = some d1) :
    ∃ d3 d4, setColNumeric (dropUnnamedCols (dropAllNaCols df)) "Opening Rank" = some d3 ∧
      setColNumeric d3 "Closing Rank" = some d4 ∧
      dropNaSubset (renameCols d4) ["Opening Rank", "Closing Rank"] = some d1 := by
  unfold preprocess_dataframe at h
  have h' : (do
      let d3 ← setColNumeric (dropUnnamedCols (dropAllNaCols df)) "Opening Rank"
      let d4 ← setColNumeric d3 "Closing Rank"
      dropNaSubset (renameCols d4) ["Opening Rank", "Closing Rank"]) = some d1 := h
  cases h3 : setColNumeric (dropUnnamedCols (dropAllNaCols df)) "Opening Rank" with
  | none => rw [h3] at h'; cases h'
  | some d3 =>
    rw [h3] at h'
    have h'' : (do
        let d4 ← setColNumeric d3 "Closing Rank"
        dropNaSubset (renameCols d4) ["Opening Rank", "Closing Rank"]) = some d1 := h'
    cases h4 : setColNumeric d3 "Closing Rank" with
    | none => rw [h4] at h''; cases h''
    | some d4 =>
      rw [h4] at h''
      exact ⟨d3, d4, rfl, h4, h''⟩

lemma preprocess_WF {df d1 : DF} (h : preprocess_dataframe df = some d1)
    (hWF : df.WF) : d1.WF := by
  obtain ⟨d3, d4, h3, h4, h6⟩ := preprocess_eq h
  have w3 : d3.WF := setColNumeric_WF h3 (dropUnnamedCols_WF _ (dropAllNaCols_WF df hWF))
  have w4 : d4.WF := setColNumeric_WF h4 w3
  exact dropNaSubset_WF h6 (renameCols_WF d4 w4)

/-- A concrete table with a side column X that becomes all-missing once the
row with the missing opening rank is dropped. -/
def cdf5 : DF :=
  DF.mk ["X", "Opening Rank", "Closing Rank"]
    [[Val.num 1, Val.na, Val.num 2], [Val.na, Val.num 5, Val.num 6]]

/-- cdf5 after one preprocess pass: the first row is dropped, leaving X
all-missing but still present. -/
def cdf5A : DF :=
  DF.mk ["X", "Opening Rank", "Closing Rank"] [[Val.na, Val.num 5, Val.num 6]]

/-- cdf5 after two preprocess passes: the second pass drops the
now-all-missing column X. -/
def cdf5B : DF :=
  DF.mk ["Opening Rank", "Closing Rank"] [[Val.num 5, Val.num 6]]

/-- C5 (counterexample): preprocess_dataframe is not idempotent on every
table: dropping the missing-rank row of cdf5 leaves column X all-missing,
so a second pass drops that column and yields a different table. -/
theorem C5_cex :
    preprocess_dataframe cdf5 = some cdf5A ∧
    preprocess_dataframe cdf5A = some cdf5B ∧
    cdf5B ≠ cdf5A := by
  decide

/-- C5 (amended): preprocess_dataframe is idempotent on every well-formed
table whose normalized output keeps at least one non-missing value in every
column: if no column of the output is all-missing, a second application
returns the output unchanged.  (In general the second pass differs exactly
by dropping the columns made all-missing by the row-dropping step, as the
counterexample shows.) -/
theorem C5_preprocess_idem (df d1 : DF)
    (hWF : df.WF)
    (h : preprocess_dataframe df = some d1)
    (hcol : ∀ i, i < d1.cols.length → colAllNa d1 i = false) :
    preprocess_dataframe d1 = some d1 := by
  have hWF1 : d1.WF := preprocess_WF h hWF
  obtain ⟨d3, d4, h3, h4, h6⟩ := preprocess_eq h
  obtain ⟨i, hi, hd3⟩ := setColNumeric_eq h3
  obtain ⟨j, hj, hd4⟩ := setColNumeric_eq h4
  obtain ⟨hpres, hd1⟩ := dropNaSubset_eq h6
  have hd3cols : d3.cols = (dropUnnamedCols (dropAllNaCols df)).cols := setColNumeric_cols h3
  have hd4cols : d4.cols = d3.cols := setColNumeric_cols h4
  have hd1cols : d1.cols = d4.cols.map renameOne := by
    rw [hd1]
    rfl
  have s1 : dropAllNaCols d1 = d1 := dropAllNaCols_id d1 hWF1 hcol
  have hnoUn : ∀ n ∈ d1.cols, startsUnnamed n = false := by
    intro n hn
    rw [hd1cols] at hn
    obtain ⟨m, hm, hmn⟩ := List.mem_map.mp hn
    have hm2 : m ∈ (dropUnnamedCols (dropAllNaCols df)).cols := by
      rw [← hd3cols, ← hd4cols]
      exact hm
    rw [← hmn]
    exact renameOne_not_unnamed m (dropUnnamedCols_no (dropAllNaCols df) m hm2)
  have s2 : dropUnnamedCols d1 = d1 := dropUnnamedCols_id d1 hWF1 hnoUn
  have hiOR : colIdx "Opening Rank" d1.cols = some i := by
    rw [hd1cols, colIdx_map_renameOne "Opening Rank" renameOne_beq_OR d4.cols,
      hd4cols, hd3cols]
    exact hi
  have hjCR : colIdx "Closing Rank" d1.cols = some j := by
    rw [hd1cols, colIdx_map_renameOne "Closing Rank" renameOne_beq_CR d4.cols, hd4cols]
    exact hj
  have hij : i ≠ j := colIdx_ne_of_names_ne hiOR hjCR (by decide)
  have hrows1 : ∀ r ∈ d1.rows, r ∈ d4.rows := by
    intro r hr
    rw [hd1] at hr
    exact (List.mem_filter.mp hr).1
  have hd4rows : ∀ r4 ∈ d4.rows, ∃ r0 : List Val,
      r4 = (r0.set i (toNumeric (r0.getD i Val.na))).set j
        (toNumeric ((r0.set i (toNumeric (r0.getD i Val.na))).getD j Val.na)) := by
    intro r4 hr4
    rw [hd4] at hr4
    obtain ⟨r3, hr3, he3⟩ := List.mem_map.mp hr4
    rw [hd3] at hr3
    obtain ⟨r0, hr0, he⟩ := List.mem_map.mp hr3
    refine ⟨r0, ?_⟩
    rw [← he3, ← he]
  have hfixOR : ∀ r ∈ d1.rows, toNumeric (r.getD i Val.na) = r.getD i Val.na := by
    intro r hr
    obtain ⟨r0, he⟩ := hd4rows r (hrows1 r hr)
    rw [he]
    rw [getD_set_ne _ j i _ Val.na (fun hx => hij hx.symm)]
    exact set_toNumeric_fixed r0 i
  have hfixCR : ∀ r ∈ d1.rows, toNumeric (r.getD j Val.na) = r.getD j Val.na := by
    intro r hr
    obtain ⟨r0, he⟩ := hd4rows r (hrows1 r hr)
    rw [he]
    exact set_toNumeric_fixed _ j
  have s3 : setColNumeric d1 "Opening Rank" = some d1 :=
    setColNumeric_id d1 "Opening Rank" i hiOR hfixOR
  have s4 : setColNumeric d1 "Closing Rank" = some d1 :=
    setColNumeric_id d1 "Closing Rank" j hjCR hfixCR
  have hren : ∀ n ∈ d1.cols, renameOne n = n := by
    intro n hn
    rw [hd1cols] at hn
    obtain ⟨m, hm, hmn⟩ := List.mem_map.mp hn
    rw [← hmn]
    exact renameOne_idem m
  have s5 : renameCols d1 = d1 := renameCols_id d1 hren
  have hkeep : ∀ r ∈ d1.rows,
      (["Opening Rank", "Closing Rank"].all (fun n => !(d1.cell r n).isNA)) = true := by
    intro r hr
    have hr' := hr
    rw [hd1] at hr'
    have hp := (List.mem_filter.mp hr').2
    have hfun : (fun n => !(d1.cell r n).isNA)
        = (fun n => !((renameCols d4).cell r n).isNA) := by
      funext n
      unfold DF.cell
      rw [hd1]
    rw [hfun]
    exact hp
  have s6 : dropNaSubset d1 ["Opening Rank", "Closing Rank"] = some d1 := by
    apply dropNaSubset_id
    · simp [List.all_cons, List.all_nil, hiOR, hjCR]
    · exact hkeep
  unfold preprocess_dataframe
  show (do
      let d3' ← setColNumeric (dropUnnamedCols (dropAllNaCols d1)) "Opening Rank"
      let d4' ← setColNumeric d3' "Closing Rank"
      dropNaSubset (renameCols d4') ["Opening Rank", "Closing Rank"]) = some d1
  rw [s1, s2, s3]
  show (do
      let d4' ← setColNumeric d1 "Closing Rank"
      dropNaSubset (renameCols d4') ["Opening Rank", "Closing Rank"]) = some d1
  rw [s4]
  show dropNaSubset (renameCols d1) ["Opening Rank", "Closing Rank"] = some d1
  rw [s5]
  exact s6

/-- An already-normalized concrete table. -/
def wdf5 : DF :=
  DF.mk ["College Name", "Opening Rank", "Closing Rank"]
    [[Val.str "IIT", Val.num 1, Val.num 5]]

/-- C5 witness: a second preprocess pass over the already-normalized table
returns it unchanged. -/
theorem C5_preprocess_idem_w : preprocess_dataframe wdf5 = some wdf5 :=
  C5_preprocess_idem wdf5 wdf5 (by decide) (by decide) (by decide)

end SelectYourUni
